import Mathlib

set_option maxRecDepth 100000

/-!
Shallow embedding of the SINAC scraper (src/data/scraper.py, src/config.py,
src/utils/ratelimiter.py) and proofs about its behaviour.

Machine conventions: Python strings are modelled as `List Char` (code points),
Python `str.find` and slice indexing (including negative indices) are modelled
exactly; HTTP responses, timeouts and body reads are supplied by oracles; the
tenacity retry decorator is modelled as a bounded retry loop; library calls
(BeautifulSoup lookups, pandas `read_html`) are modelled at the granularity of
their documented observable behaviour on the inputs this program feeds them.
-/

namespace SINAC

/-! ### Constants from src/config.py -/

/-- `RETRIES = 4` (src/config.py line 23). -/
def RETRIES : Nat := 4

/-- `PARAMETER_CODES = {26, 46, 47, 51, 52, 53, 64, 65, 66, 67}` (src/config.py line 2). -/
def PARAMETER_CODES : List Nat := [26, 46, 47, 51, 52, 53, 64, 65, 66, 67]

/-! ### Fault taxonomy (scraper.py lines 20-34)

`RequestError` is the base class; `TooManyRequestsError`, `NetworkError` and
`ServerError` derive from it.  `otherError` stands for any exception that is
not a `RequestError` (the bare `raise` in the `except Exception` arm). -/

inductive Fault where
  | tooManyRequests
  | serverError
  | requestError
  | networkError
  | otherError
deriving DecidableEq

/-- Outcome of one attempt of the body of a `_fetch_data` call. -/
inductive Outcome where
  | success (body : String)
  | failure (f : Fault)
deriving DecidableEq

/-- What the remote side / transport does on one attempt: an HTTP response with
a status, a body and a flag telling whether reading the body succeeds
(`response.text()` may raise), or a timeout, or an `aiohttp.ClientError`, or an
unexpected exception. -/
inductive RespInput where
  | http (status : Nat) (body : String) (readOk : Bool)
  | timeoutErr
  | clientConnErr
  | unexpectedErr
deriving DecidableEq

/-- `SINACPayloadSraper._handle_response` (scraper.py lines 97-109):
429 raises TooManyRequestsError, >= 500 ServerError, >= 400 RequestError,
otherwise the body is read (a read failure raises NetworkError). -/
def handle_response_payload (status : Nat) (body : String) (readOk : Bool) :
    Except Fault String :=
  if status == 429 then .error .tooManyRequests
  else if 500 ≤ status then .error .serverError
  else if 400 ≤ status then .error .requestError
  else if readOk then .ok body
  else .error .networkError

/-- `SINACRedScraper._handle_response` (scraper.py lines 355-369): same as the
payload variant except that status 404 is only logged and then falls through to
the body read. -/
def handle_response_red (status : Nat) (body : String) (readOk : Bool) :
    Except Fault String :=
  if status == 429 then .error .tooManyRequests
  else if status == 404 then (if readOk then .ok body else .error .networkError)
  else if 500 ≤ status then .error .serverError
  else if 400 ≤ status then .error .requestError
  else if readOk then .ok body
  else .error .networkError

/-- One attempt of the body of `_fetch_data` (scraper.py lines 119-144 and
380-405): a timeout becomes NetworkError, an aiohttp client error becomes
NetworkError, any other exception propagates as-is; an HTTP response goes
through `_handle_response`. -/
def attemptOutcome (handle : Nat → String → Bool → Except Fault String) :
    RespInput → Outcome
  | .http s b r =>
    match handle s b r with
    | .ok body => .success body
    | .error f => .failure f
  | .timeoutErr => .failure .networkError
  | .clientConnErr => .failure .networkError
  | .unexpectedErr => .failure .otherError

/-- The retry predicate of `SINACPayloadSraper._fetch_data`
(`retry_if_exception_type((TooManyRequestsError, ServerError, NetworkError))`,
scraper.py line 114): plain `RequestError` is NOT in the list. -/
def discovery_retryable : Fault → Bool
  | .tooManyRequests => true
  | .serverError => true
  | .networkError => true
  | _ => false

/-- The retry predicate of `SINACRedScraper._fetch_data`
(`retry_if_exception_type((TooManyRequestsError, ServerError, RequestError,
NetworkError))`, scraper.py line 374): `RequestError` and hence every fault of
the taxonomy except non-RequestError exceptions is retryable. -/
def extraction_retryable : Fault → Bool
  | .otherError => false
  | _ => true

/-- Error surfaced by a fetch: a non-retryable fault propagates directly; when
the attempt budget is exhausted, tenacity raises a `RetryError` wrapping the
last fault. -/
inductive FetchErr where
  | direct (f : Fault)
  | retriesExhausted (f : Fault)
deriving DecidableEq

/-- The tenacity loop `@retry(stop=stop_after_attempt(RETRIES), retry=...)`:
`n` is the number of attempts already made, `r` the number of attempts still
allowed.  Returns the total number of attempts performed together with the
result.  The `r = 0` arm is never reached from `fetch_data`, which starts with
a positive budget. -/
def fetchGo (retryable : Fault → Bool) (attempts : Nat → Outcome) :
    Nat → Nat → Nat × Except FetchErr String
  | n, 0 => (n, .error (.direct .otherError))
  | n, r + 1 =>
    match attempts n with
    | .success s => (n + 1, .ok s)
    | .failure f =>
      if retryable f then
        if r == 0 then (n + 1, .error (.retriesExhausted f))
        else fetchGo retryable attempts (n + 1) r
      else (n + 1, .error (.direct f))

/-- The two phases of the pipeline. -/
inductive Phase where
  | discovery
  | extraction
deriving DecidableEq

/-- Retry predicate of the phase's `_fetch_data` decorator. -/
def phase_retryable : Phase → Fault → Bool
  | .discovery => discovery_retryable
  | .extraction => extraction_retryable

/-- Response classifier of the phase's `_handle_response`. -/
def phase_handle : Phase → Nat → String → Bool → Except Fault String
  | .discovery => handle_response_payload
  | .extraction => handle_response_red

/-- A full `_fetch_data` call of the given phase, driven by an oracle giving
the transport behaviour of each attempt: number of attempts performed and the
final result. -/
def fetch_data (p : Phase) (inputs : Nat → RespInput) :
    Nat × Except FetchErr String :=
  fetchGo (phase_retryable p) (fun n => attemptOutcome (phase_handle p) (inputs n)) 0 RETRIES

/-! ### Event trace of a fetch (rate limiter use, scraper.py lines 130 and 391)

In `SINACRedScraper._fetch_data` the body starts with
`await self.rate_limiter.acquire()` and then posts; in
`SINACPayloadSraper._fetch_data` the acquire line is commented out and the body
only posts. -/

inductive FetchEvent where
  | acquireLimiter
  | postRequest
deriving DecidableEq

/-- Events of one attempt of `SINACPayloadSraper._fetch_data`: the rate-limiter
line is commented out (scraper.py line 130). -/
def payload_attempt_events : List FetchEvent := [.postRequest]

/-- Events of one attempt of `SINACRedScraper._fetch_data`: acquire the rate
limiter, then post (scraper.py lines 391-394). -/
def red_attempt_events : List FetchEvent := [.acquireLimiter, .postRequest]

/-- Per-attempt events of the phase's `_fetch_data`. -/
def phase_attempt_events : Phase → List FetchEvent
  | .discovery => payload_attempt_events
  | .extraction => red_attempt_events

/-- The event trace of a full fetch: the per-attempt events, once per attempt
actually performed. -/
def fetch_trace (p : Phase) (inputs : Nat → RespInput) : List FetchEvent :=
  (List.replicate (fetch_data p inputs).1 (phase_attempt_events p)).flatten

/-! ### Python string primitives

Python `str.find`, `str.split`, `str.strip`-free slicing with negative-index
normalisation, modelled over `List Char`. -/

/-- Helper of `pyFind`: lowest scan position at which `pat` is a prefix of the
remaining text, absolute position carried in `i`. -/
def pyFindGo (pat : List Char) : List Char → Nat → Option Nat
  | [], i => if pat.isPrefixOf ([] : List Char) then some i else none
  | c :: t, i => if pat.isPrefixOf (c :: t) then some i else pyFindGo pat t (i + 1)

/-- Python `s.find(pat)`: lowest index where `pat` occurs, `-1` if absent. -/
def pyFind (s pat : List Char) : Int :=
  match pyFindGo pat s 0 with
  | some n => (n : Int)
  | none => -1

/-- Python slice-index normalisation: a negative index counts from the end and
clamps at 0; a nonnegative index clamps at the length. -/
def pySliceIdx (len : Nat) (i : Int) : Nat :=
  if i < 0 then ((len : Int) + i).toNat
  else min i.toNat len

/-- Python `s[a:b]`. -/
def pySlice (s : List Char) (a b : Int) : List Char :=
  (s.take (pySliceIdx s.length b)).drop (pySliceIdx s.length a)

/-- Python `s[a:]`. -/
def pySliceFrom (s : List Char) (a : Int) : List Char :=
  s.drop (pySliceIdx s.length a)

/-- Digit value of a character, `none` for a non-digit. -/
def charDigit? (c : Char) : Option Nat :=
  if 48 ≤ c.toNat ∧ c.toNat ≤ 57 then some (c.toNat - 48) else none

/-- Helper of `charsToNat?`: accumulate base-10 digits. -/
def charsToNatGo : List Char → Nat → Option Nat
  | [], acc => some acc
  | c :: t, acc =>
    match charDigit? c with
    | none => none
    | some d => charsToNatGo t (acc * 10 + d)

/-- Parse a non-empty all-digit character list as a natural number (the
integer parsing pandas applies to the numeric `Código` column). -/
def charsToNat? : List Char → Option Nat
  | [] => none
  | l => charsToNatGo l 0

/-- ASCII whitespace (space, tab, newline, carriage return). -/
def isSpaceChar (c : Char) : Bool :=
  c.toNat == 32 || c.toNat == 9 || c.toNat == 10 || c.toNat == 13

/-- Python `str.strip()`: remove leading and trailing whitespace. -/
def pyStrip (s : List Char) : List Char :=
  ((s.dropWhile isSpaceChar).reverse.dropWhile isSpaceChar).reverse

/-- Helper of `pySplit`, with fuel (the text shrinks by at least one character
per found separator, so `s.length + 1` fuel suffices). -/
def pySplitGo (sep : List Char) : Nat → List Char → List (List Char)
  | 0, s => [s]
  | fuel + 1, s =>
    match pyFindGo sep s 0 with
    | none => [s]
    | some i => s.take i :: pySplitGo sep fuel (s.drop (i + sep.length))

/-- Python `s.split(sep)` for a non-empty separator. -/
def pySplit (s sep : List Char) : List (List Char) :=
  pySplitGo sep (s.length + 1) s

/-- Helper of `segmentsBetween`, with fuel. -/
def segmentsGo (openT closeT : List Char) : Nat → List Char → List (List Char)
  | 0, _ => []
  | fuel + 1, s =>
    match pyFindGo openT s 0 with
    | none => []
    | some i =>
      let afterOpen := s.drop (i + openT.length)
      match pyFindGo closeT afterOpen 0 with
      | none => []
      | some j => afterOpen.take j :: segmentsGo openT closeT fuel (afterOpen.drop (j + closeT.length))

/-- All maximal `openT ... closeT` delimited segments of `s`, in order. -/
def segmentsBetween (openT closeT s : List Char) : List (List Char) :=
  segmentsGo openT closeT (s.length + 1) s

/-! ### Option extractor: `SINACPayloadSraper._parse_options` (scraper.py 90-95)

The BeautifulSoup step `soup.find_all('option')` is modelled by taking the
list of option elements directly as input; an element's `value` attribute is
`none` when the attribute is absent, in which case the subscript
`option['value']` raises `KeyError`. -/

/-- One `<option>` element as produced by `soup.find_all('option')`. -/
structure OptionElem where
  value : Option String
  text : String
deriving DecidableEq

/-- `_parse_options`: the comprehension
`[(option['value'], option.text) for option in options if option['value'] != '']`.
Evaluation is element by element; the first element whose `value` attribute is
absent raises `KeyError` and aborts the whole comprehension. -/
def parse_options : List OptionElem → Except String (List (String × String))
  | [] => .ok []
  | o :: rest =>
    match o.value with
    | none => .error "KeyError: value"
    | some v =>
      match parse_options rest with
      | .error e => .error e
      | .ok tl => if v != "" then .ok ((v, o.text) :: tl) else .ok tl

/-! ### Network table extractor: `SINACRedScraper._parse_table` (scraper.py 324-338)

The BeautifulSoup steps are modelled at the DOM level: the input is
`soup.find('table', id='red')` (`none` when the table is absent) as a list of
`<tr>` rows, each row carrying `row.find('a')` as an optional
`(href, link text)` pair.  The string surgery on `href` follows the source:
`link['href'].split('eleccionRedDistribucion(')[1].split(')')[0]` — the `[1]`
raises `IndexError` when the marker is absent from the href. -/

/-- One `<tr>` of the network table, reduced to its `row.find('a')` result. -/
structure RedRowHtml where
  link : Option (String × String)
deriving DecidableEq

/-- The href marker used to carve out the network id. -/
def redMarker : String := "eleccionRedDistribucion("

/-- The row loop of `_parse_table`: rows without a link are skipped; a linked
row yields `(red_code, red_name)` where `red_name` is the stripped link text. -/
def parseRedRows : List RedRowHtml → Except String (List (String × String))
  | [] => .ok []
  | row :: rest =>
    match row.link with
    | none => parseRedRows rest
    | some (href, txt) =>
      match pySplit href.data redMarker.data with
      | _ :: second :: _ =>
        let red_code := String.mk ((pySplit second (")".data)).headD [])
        let red_name := String.mk (pyStrip txt.data)
        match parseRedRows rest with
        | .error e => .error e
        | .ok tl => .ok ((red_code, red_name) :: tl)
      | _ => .error "IndexError"

/-- `_parse_table`: `if not table: return []`, else walk the rows. -/
def parse_table (t : Option (List RedRowHtml)) : Except String (List (String × String)) :=
  match t with
  | none => .ok []
  | some rows => parseRedRows rows

/-! ### Measurement table extractor: `SINACRedScraper._parse_data` (scraper.py 340-353)

This function is pure string surgery plus `BeautifulSoup(...).find('table')`
plus `pd.read_html`.  The string surgery (`find`, negative-index slicing) is
modelled exactly.  `find('table')` returns a node iff the fragment contains a
`<table` start tag; when it returns `None`, the source passes the string
`'None'` to `pd.read_html`, which raises `ValueError: No tables found`.
`pd.read_html` row extraction is modelled as collecting the `<td>` cells of
each `<tr>` segment; the first cell is the `Código` column.  The rename of
`'Valor cuantificado'` to `'Valor'` only changes a column label and is not
part of the row model. -/

/-- The section heading searched by `_parse_data` (scraper.py line 342). -/
def headingText : String :=
  "Últimos valor notificado de los parámetros de la legislación vigente"

/-- One row of the measurement table: its cell texts, `Código` first. -/
structure MeasRow where
  cells : List String
deriving DecidableEq

/-- The `Código` column of a row: the first cell read as a number (`none` for
the header row or a non-numeric cell). -/
def rowCode (r : MeasRow) : Option Nat :=
  match r.cells with
  | [] => none
  | c :: _ => charsToNat? c.data

/-- `df['Código'].isin(PARAMETER_CODES)` for one row. -/
def isinCodes (r : MeasRow) : Bool :=
  match rowCode r with
  | some c => PARAMETER_CODES.contains c
  | none => false

/-- `BeautifulSoup(frag).find('table')` then `pd.read_html(str(table))[0]`:
raises (`.error`) when the fragment has no `<table` start tag (find gives
`None`, `read_html('None')` raises `ValueError`), otherwise the rows. -/
def readHtmlTable (frag : List Char) : Except String (List MeasRow) :=
  if pyFind frag "<table".data == -1 then .error "No tables found"
  else .ok ((segmentsBetween "<tr".data "</tr>".data frag).map
    (fun r => ⟨(segmentsBetween "<td>".data "</td>".data r).map String.mk⟩))

/-- The local `html_table` of `_parse_data`: locate the heading, slice from
the following `<table` up to the following `</table`, close the fragment. -/
def parse_data_fragment (html : String) : List Char :=
  let hc := html.data
  let start_idx := pyFind hc headingText.data
  let tail := pySliceFrom hc start_idx
  let start_id_table := pyFind tail "<table".data
  let end_id_table := pyFind tail "</table".data
  pySlice hc (start_idx + start_id_table) (start_idx + end_id_table) ++ "</table>".data

/-- `_parse_data`: parse the carved-out fragment and filter the rows to the
parameter-code whitelist. -/
def parse_data (html : String) : Except String (List MeasRow) :=
  match readHtmlTable (parse_data_fragment html) with
  | .error e => .error e
  | .ok rows => .ok (rows.filter isinCodes)

/-! ### Rate limiter: `RateLimiter` (src/utils/ratelimiter.py)

`acquire()` runs under the instance lock: it reads the clock, sleeps
`1/requests_per_second - elapsed` when the elapsed time since
`last_request_time` is smaller than `1/requests_per_second`, and then stores a
fresh clock reading as `last_request_time`.  Time is modelled with rationals.
Each call is driven by a pair `(δ, ε)`: `δ ≥ 0` is how much the wall clock
advanced between the previous grant (initially time 0, the initial
`last_request_time`) and this call's first `time.time()` reading, and `ε ≥ 0`
is the extra delay between the end of the (possibly empty) sleep and the
second `time.time()` reading (`asyncio.sleep` may oversleep, never
undersleep).  The lock makes consecutive acquisitions sequential, which is the
execution modelled here. -/

/-- The grant times (values stored into `last_request_time`) of a sequence of
`acquire()` calls, starting from `last_request_time = last`. -/
def rlGrants (R : ℚ) : ℚ → List (ℚ × ℚ) → List ℚ
  | _, [] => []
  | last, (δ, ε) :: rest =>
    let now := last + δ
    let elapsed := now - last
    let grant := (if elapsed < 1 / R then now + (1 / R - elapsed) else now) + ε
    grant :: rlGrants R grant rest

/-- A run of consecutive `acquire()` calls on a freshly constructed
`RateLimiter` (`last_request_time = 0`). -/
def rateLimiterRun (R : ℚ) (steps : List (ℚ × ℚ)) : List ℚ :=
  rlGrants R 0 steps

/-! ### Extraction engine: `SINACRedScraper` (scraper.py 249-505)

The engine state: the three in-memory accumulators (`self.dataframes`), their
on-disk snapshots (written by `_save_results`), the progress counter and the
arguments passed to the progress callback.  The `'payload'` accumulator
(`red_payload_df`) is created empty and no engine code ever appends to it.
The per-municipality and per-network behaviour of the remote portal is an
oracle; `asyncio.gather` over the networks of a municipality is linearised in
network order (the appends happen under `df_locks['red']`, and no claim
depends on the interleaving). -/

/-- The triple of names kept for a municipality (`munid2names` record). -/
structure MunNames where
  community_name : String
  province : String
  municipe : String
deriving DecidableEq

/-- A row of the `'red'` accumulator: a parsed measurement row tagged with the
municipality names and the network name (scraper.py 428-434). -/
structure TaggedRow where
  names : MunNames
  red_name : String
  row : MeasRow
deriving DecidableEq

/-- The three accumulators of `self.dataframes`.  Nothing ever appends to
`payloadT`, matching the source. -/
structure Tables where
  payloadT : List Unit
  invalid : List MunNames
  red : List TaggedRow
deriving DecidableEq

/-- Engine state: in-memory tables, their on-disk snapshots, the progress
counter and the recorded progress-callback invocations. -/
structure RunState where
  mem : Tables
  disk : Tables
  counter : Nat
  calls : List Nat
deriving DecidableEq

/-- `_update_progress` (scraper.py 309-312): only when a callback was supplied
is the counter incremented and the callback invoked with the new count. -/
def update_progress (hasCb : Bool) (st : RunState) : RunState :=
  if hasCb then
    { st with counter := st.counter + 1, calls := st.calls ++ [st.counter + 1] }
  else st

/-- Oracle for one municipality: its names, the outcome of the network-list
fetch (already reduced, on success, to the `soup.find('table', id='red')`
result fed to `_parse_table`), and the HTML content fetched for its `i`-th
network. -/
structure MunOracle where
  names : MunNames
  netFetch : Except FetchErr (Option (List RedRowHtml))
  contentAt : Nat → Except FetchErr String

/-- Errors that abort a run: a fetch that raised out of its retry loop, a
parse error (`IndexError` from `_parse_table`, `ValueError` from
`pd.read_html` inside `_parse_data`). -/
inductive RunErr where
  | fetchFail (e : FetchErr)
  | parseFail (msg : String)
deriving DecidableEq

/-- The networks a municipality's discovery parses, when both the fetch and
`_parse_table` succeed. -/
def discoveredReds (m : MunOracle) : Option (List (String × String)) :=
  match m.netFetch with
  | .error _ => none
  | .ok doc =>
    match parse_table doc with
    | .error _ => none
    | .ok reds => some reds

/-- The loop body of `_process_red` (scraper.py 407-440) over the networks of
one municipality, in order (`i` is the network's index, used to query the
content oracle): fetch the content, parse it, and when the parsed table is
non-empty append its rows, tagged with the names, to the `'red'` accumulator.
Any error propagates. -/
def processReds (names : MunNames) (contentAt : Nat → Except FetchErr String) :
    List (String × String) → Nat → Tables → Except RunErr Tables
  | [], _, tbl => .ok tbl
  | (_, red_name) :: rest, i, tbl =>
    match contentAt i with
    | .error e => .error (.fetchFail e)
    | .ok html =>
      match parse_data html with
      | .error msg => .error (.parseFail msg)
      | .ok rows =>
        let tbl1 := if rows.isEmpty then tbl
          else { tbl with red := tbl.red ++ rows.map (fun r => ⟨names, red_name, r⟩) }
        processReds names contentAt rest (i + 1) tbl1

/-- `_process_mun_reds` (scraper.py 442-482): fetch and parse the network
list; on zero networks append the invalid-municipality record, update
progress and return — without touching the disk; otherwise process every
network, then checkpoint all three accumulators (`_save_results` for each) and
update progress. -/
def process_mun_reds (hasCb : Bool) (st : RunState) (m : MunOracle) :
    Except RunErr RunState :=
  match m.netFetch with
  | .error e => .error (.fetchFail e)
  | .ok doc =>
    match parse_table doc with
    | .error msg => .error (.parseFail msg)
    | .ok reds =>
      if reds.length == 0 then
        let st1 := { st with mem := { st.mem with invalid := st.mem.invalid ++ [m.names] } }
        .ok (update_progress hasCb st1)
      else
        match processReds m.names m.contentAt reds 0 st.mem with
        | .error e => .error e
        | .ok mem1 =>
          let st1 := { st with mem := mem1, disk := mem1 }
          .ok (update_progress hasCb st1)

/-- Sequential processing of the municipalities (the linearisation of
`scrape`'s `as_completed` loop); the first error tears the run down. -/
def runGo (hasCb : Bool) : RunState → List MunOracle → Except RunErr RunState
  | st, [] => .ok st
  | st, m :: rest =>
    match process_mun_reds hasCb st m with
    | .error e => .error e
    | .ok st1 => runGo hasCb st1 rest

/-- The engine's initial state: all accumulators empty, counter 0. -/
def initState : RunState :=
  { mem := ⟨[], [], []⟩, disk := ⟨[], [], []⟩, counter := 0, calls := [] }

/-- A full extraction run over the given municipalities. -/
def runExtract (hasCb : Bool) (ms : List MunOracle) : Except RunErr RunState :=
  runGo hasCb initState ms

/-! ### Concrete fixtures used by witnesses -/

/-- A content document with the heading, one whitelisted row (code 26) and one
non-whitelisted row (code 99). -/
def goodHtml : String :=
  headingText ++ "<table><tr><td>26</td><td>x</td></tr><tr><td>99</td><td>y</td></tr></table>"

/-- A municipality whose network page has no `<table id='red'>`: zero
networks. -/
def munSinRedes : MunOracle :=
  ⟨⟨"CA", "Prov", "MunA"⟩, .ok none, fun _ => .ok ""⟩

/-- A municipality with one network whose content page is `goodHtml`. -/
def munConRedes : MunOracle :=
  ⟨⟨"CA", "Prov", "MunB"⟩,
    .ok (some [⟨some ("javascript:eleccionRedDistribucion(5);", " RedX ")⟩]),
    fun _ => .ok goodHtml⟩

/-- The state a with-callback run over the two fixture municipalities ends in:
one invalid record, one tagged measurement row, both checkpointed, counter 2,
callback invoked with 1 then 2. -/
def runStateAB : RunState :=
  ⟨⟨[], [⟨"CA", "Prov", "MunA"⟩], [⟨⟨"CA", "Prov", "MunB"⟩, "RedX", ⟨["26", "x"]⟩⟩]⟩,
    ⟨[], [⟨"CA", "Prov", "MunA"⟩], [⟨⟨"CA", "Prov", "MunB"⟩, "RedX", ⟨["26", "x"]⟩⟩]⟩,
    2, [1, 2]⟩

/-- The state the same run ends in without a progress callback: same tables,
counter 0, no callback invocations. -/
def runStateABnoCb : RunState :=
  ⟨⟨[], [⟨"CA", "Prov", "MunA"⟩], [⟨⟨"CA", "Prov", "MunB"⟩, "RedX", ⟨["26", "x"]⟩⟩]⟩,
    ⟨[], [⟨"CA", "Prov", "MunA"⟩], [⟨⟨"CA", "Prov", "MunB"⟩, "RedX", ⟨["26", "x"]⟩⟩]⟩,
    0, []⟩

/-! ## Helper lemmas -/

/-- When every attempt fails with a retryable fault, the retry loop uses its
whole budget and surfaces the last fault wrapped in a retries-exhausted
error. -/
theorem fetchGo_all_retryable_fail (retryable : Fault → Bool) (attempts : Nat → Outcome)
    (hall : ∀ i, ∃ f, attempts i = .failure f ∧ retryable f = true) :
    ∀ r n, 0 < r → ∃ f, attempts (n + r - 1) = .failure f ∧
      fetchGo retryable attempts n r = (n + r, .error (.retriesExhausted f)) := by
  intro r
  induction r with
  | zero => intro n h; omega
  | succ r ih =>
    intro n _
    obtain ⟨f, hf, hret⟩ := hall n
    match r, ih with
    | 0, _ =>
      exact ⟨f, by simpa using hf, by simp [fetchGo, hf, hret]⟩
    | r + 1, ih =>
      obtain ⟨g, hg, hres⟩ := ih (n + 1) (Nat.succ_pos r)
      refine ⟨g, by convert hg using 2; omega, ?_⟩
      have : fetchGo retryable attempts n (r + 1 + 1) = fetchGo retryable attempts (n + 1) (r + 1) := by
        simp [fetchGo, hf, hret]
      rw [this, hres]
      have heq : n + 1 + (r + 1) = n + (r + 1 + 1) := by omega
      rw [heq]

/-- When the first `k` attempts fail retryably and attempt `k` (within budget)
succeeds, the retry loop returns the successful body after `k + 1` attempts. -/
theorem fetchGo_eventually_succeeds (retryable : Fault → Bool) (attempts : Nat → Outcome) :
    ∀ (k r n : Nat) (s : String), k < r →
      (∀ i, i < k → ∃ f, attempts (n + i) = .failure f ∧ retryable f = true) →
      attempts (n + k) = .success s →
      fetchGo retryable attempts n r = (n + k + 1, .ok s) := by
  intro k
  induction k with
  | zero =>
    intro r n s hr _ hs
    match r, hr with
    | r + 1, _ => simp_all [fetchGo]
  | succ k ih =>
    intro r n s hr hfail hs
    match r, hr with
    | r + 1, hr =>
      obtain ⟨f, hf, hret⟩ := hfail 0 (Nat.succ_pos k)
      simp only [Nat.add_zero] at hf
      have hstep : fetchGo retryable attempts n (r + 1) = fetchGo retryable attempts (n + 1) r := by
        have hrpos : r ≠ 0 := by omega
        simp [fetchGo, hf, hret, hrpos]
      rw [hstep]
      have := ih r (n + 1) s (by omega)
        (fun i hi => by
          obtain ⟨g, hg, hgret⟩ := hfail (i + 1) (by omega)
          exact ⟨g, by convert hg using 2; omega, hgret⟩)
        (by convert hs using 2; omega)
      rw [this]
      have heq : n + 1 + k + 1 = n + (k + 1) + 1 := by omega
      rw [heq]

/-- A list is a (boolean) prefix of another only when it is not longer. -/
theorem length_le_of_isPrefixOf {p s : List Char} (h : p.isPrefixOf s = true) :
    p.length ≤ s.length := by
  induction p generalizing s with
  | nil => simp
  | cons c t ih =>
    cases s with
    | nil => simp [List.isPrefixOf] at h
    | cons d u =>
      simp only [List.isPrefixOf, Bool.and_eq_true] at h
      simpa using ih h.2

/-- Python `find` returns -1 when the pattern is longer than the text. -/
theorem pyFind_eq_neg_one_of_short {s pat : List Char} (h : s.length < pat.length) :
    pyFind s pat = -1 := by
  suffices hgo : ∀ i, pyFindGo pat s i = none by simp [pyFind, hgo]
  induction s with
  | nil =>
    intro i
    have : pat.isPrefixOf ([] : List Char) = false := by
      cases pat with
      | nil => simp at h
      | cons c t => simp [List.isPrefixOf]
    simp [pyFindGo, this]
  | cons c t ih =>
    intro i
    have hp : pat.isPrefixOf (c :: t) = false := by
      by_contra hne
      have := length_le_of_isPrefixOf (by simpa using Bool.of_not_eq_false hne)
      omega
    have ht : t.length < pat.length := by simp at h; omega
    simp [pyFindGo, hp, ih ht]

/-- An empty Python slice: `s[a:a] = ''`. -/
theorem pySlice_self (s : List Char) (a : Int) : pySlice s a a = [] := by
  unfold pySlice
  rw [List.drop_take]
  simp

/-! ## Claim theorems -/

/-- C1: for every fetch operation (discovery-phase or extraction-phase
`_fetch_data`): if every attempt raises a retryable fault, the fetch performs
exactly `RETRIES = 4` total attempts and then raises the fault (wrapped by the
exhausted-retries error) to the caller; if the first attempts raise retryable
faults and a later attempt within the budget succeeds, the fetch returns the
successful response body without raising. -/
theorem fetch_retry_policy (p : Phase) (inputs : Nat → RespInput) :
    ((∀ n, ∃ f, attemptOutcome (phase_handle p) (inputs n) = .failure f ∧
        phase_retryable p f = true) →
      (fetch_data p inputs).1 = RETRIES ∧
      ∃ f, (fetch_data p inputs).2 = .error (.retriesExhausted f)) ∧
    (∀ k s, k < RETRIES →
      (∀ i, i < k → ∃ f, attemptOutcome (phase_handle p) (inputs i) = .failure f ∧
        phase_retryable p f = true) →
      attemptOutcome (phase_handle p) (inputs k) = .success s →
      fetch_data p inputs = (k + 1, .ok s)) := by
  constructor
  · intro hall
    obtain ⟨f, _, hres⟩ := fetchGo_all_retryable_fail (phase_retryable p)
      (fun n => attemptOutcome (phase_handle p) (inputs n)) hall RETRIES 0 (by decide)
    unfold fetch_data
    rw [hres]
    exact ⟨rfl, f, rfl⟩
  · intro k s hk hfail hs
    unfold fetch_data
    have := fetchGo_eventually_succeeds (phase_retryable p)
      (fun n => attemptOutcome (phase_handle p) (inputs n)) k RETRIES 0 s hk
      (fun i hi => by simpa using hfail i hi) (by simpa using hs)
    simpa using this

/-- Witness for C1: an extraction-phase fetch against a portal answering 429 on
every attempt makes exactly 4 attempts and raises; a discovery-phase fetch that
gets a 500 and then a 200 returns the second body after 2 attempts. -/
theorem fetch_retry_policy_witness :
    ((fetch_data .extraction (fun _ => .http 429 "" true)).1 = RETRIES ∧
      ∃ f, (fetch_data .extraction (fun _ => .http 429 "" true)).2 =
        .error (.retriesExhausted f)) ∧
    fetch_data .discovery
      (fun n => if n == 0 then .http 500 "" true else .http 200 "okbody" true) =
      (2, .ok "okbody") :=
  ⟨(fetch_retry_policy .extraction (fun _ => .http 429 "" true)).1
      (fun _ => ⟨.tooManyRequests, rfl, rfl⟩),
    (fetch_retry_policy .discovery
        (fun n => if n == 0 then .http 500 "" true else .http 200 "okbody" true)).2
      1 "okbody" (by decide)
      (fun i hi => by
        have : i = 0 := by omega
        subst this
        exact ⟨.serverError, rfl, rfl⟩)
      rfl⟩

/-- C2 counterexample: in the extraction phase a 400 response is classified as
a client/request fault, but `SINACRedScraper._fetch_data`'s retry decorator
lists `RequestError` among the retryable exception types, so a portal that
answers 400 on every attempt is retried for the full budget of 4 attempts —
the exception is not raised immediately after the first such response. -/
theorem extraction_client_fault_retried_counterexample :
    attemptOutcome (phase_handle .extraction) (.http 400 "" true) =
      .failure .requestError ∧
    fetch_data .extraction (fun _ => .http 400 "" true) =
      (4, .error (.retriesExhausted .requestError)) ∧
    (4 : Nat) ≠ 1 :=
  ⟨rfl, rfl, by decide⟩

/-- C2 (amended): a response with HTTP status in [400, 500) other than 429 is
classified as a client/request fault in both phases, but only the
discovery-phase fetch treats it as fatal, raising it to the caller immediately
after the first such response with no retry; the extraction-phase fetch's
retryable set also contains `RequestError`, so there such a response (also
excluding 404) is retried until the 4-attempt budget is exhausted. -/
theorem client_fault_retry_amended :
    (∀ (inputs : Nat → RespInput) (status : Nat) (body : String) (readOk : Bool),
      400 ≤ status → status < 500 → status ≠ 429 →
      inputs 0 = .http status body readOk →
      fetch_data .discovery inputs = (1, .error (.direct .requestError))) ∧
    (∀ (status : Nat) (body : String) (readOk : Bool),
      400 ≤ status → status < 500 → status ≠ 429 → status ≠ 404 →
      fetch_data .extraction (fun _ => .http status body readOk) =
        (RETRIES, .error (.retriesExhausted .requestError))) := by
  constructor
  · intro inputs status body readOk h4 h5 h429 h0
    have hcls : attemptOutcome (phase_handle .discovery) (inputs 0) =
        .failure .requestError := by
      rw [h0]
      simp only [phase_handle, attemptOutcome, handle_response_payload]
      have e429 : (status == 429) = false := by simp [h429]
      have e5 : ¬ (500 ≤ status) := by omega
      simp [e429, e5, h4]
    show fetchGo _ _ 0 RETRIES = _
    unfold RETRIES fetchGo
    rw [hcls]
    rfl
  · intro status body readOk h4 h5 h429 h404
    have hcls : attemptOutcome (phase_handle .extraction)
        (RespInput.http status body readOk) = .failure .requestError := by
      simp only [phase_handle, attemptOutcome, handle_response_red]
      have e429 : (status == 429) = false := by simp [h429]
      have e404 : (status == 404) = false := by simp [h404]
      have e5 : ¬ (500 ≤ status) := by omega
      simp [e429, e404, e5, h4]
    obtain ⟨f, hf, hres⟩ := fetchGo_all_retryable_fail (phase_retryable .extraction)
      (fun n => attemptOutcome (phase_handle .extraction) (.http status body readOk))
      (fun _ => ⟨.requestError, hcls, rfl⟩) RETRIES 0 (by decide)
    have hfeq : f = .requestError := by
      rw [hcls] at hf
      exact (Outcome.failure.inj hf).symm
    subst hfeq
    exact hres

/-- C3 counterexample: on an HTML document in which the measurement section
heading cannot be located, `_parse_data` does not return an empty table: the
sliced fragment degenerates to `'</table>'`, `soup.find('table')` yields
`None`, and `pd.read_html('None')` raises `ValueError: No tables found`. -/
theorem parse_data_missing_heading_counterexample :
    pyFind "<html></html>".data headingText.data = -1 ∧
    parse_data "<html></html>" = .error "No tables found" ∧
    ∀ rows : List MeasRow, parse_data "<html></html>" ≠ .ok rows := by
  refine ⟨rfl, rfl, ?_⟩
  intro rows h
  rw [show parse_data "<html></html>" = .error "No tables found" from rfl] at h
  exact Except.noConfusion h

/-- C3 (amended): for every input HTML string in which the measurement section
heading cannot be located, `_parse_data` raises `ValueError: No tables found`
(from `pd.read_html` applied to the stringified `None`), and the caller
(`_process_red`, here its loop body `processReds`) propagates the error —
aborting the run — instead of recording zero measurements for that network. -/
theorem parse_data_missing_section_raises :
    (∀ html : String, pyFind html.data headingText.data = -1 →
      parse_data html = .error "No tables found") ∧
    (∀ (names : MunNames) (contentAt : Nat → Except FetchErr String)
        (red_id red_name : String) (i : Nat) (tbl : Tables) (html : String)
        (rest : List (String × String)),
      contentAt i = .ok html → pyFind html.data headingText.data = -1 →
      processReds names contentAt ((red_id, red_name) :: rest) i tbl =
        .error (.parseFail "No tables found")) := by
  have main : ∀ html : String, pyFind html.data headingText.data = -1 →
      parse_data html = .error "No tables found" := by
    intro html h
    have hlen : (pySliceFrom html.data (-1)).length ≤ 1 := by
      unfold pySliceFrom pySliceIdx
      rw [if_pos (by decide : (-1 : Int) < 0), List.length_drop]
      omega
    have h6 : ("<table".data).length = 6 := rfl
    have h7 : ("</table".data).length = 7 := rfl
    have h1 : pyFind (pySliceFrom html.data (-1)) "<table".data = -1 :=
      pyFind_eq_neg_one_of_short (by omega)
    have h2 : pyFind (pySliceFrom html.data (-1)) "</table".data = -1 :=
      pyFind_eq_neg_one_of_short (by omega)
    have hfrag : parse_data_fragment html = "</table>".data := by
      show pySlice html.data
          (pyFind html.data headingText.data +
            pyFind (pySliceFrom html.data (pyFind html.data headingText.data)) "<table".data)
          (pyFind html.data headingText.data +
            pyFind (pySliceFrom html.data (pyFind html.data headingText.data)) "</table".data)
        ++ "</table>".data = "</table>".data
      rw [h, h1, h2, show (-1 : Int) + -1 = -2 from rfl, pySlice_self, List.nil_append]
    unfold parse_data
    rw [hfrag]
    rfl
  refine ⟨main, ?_⟩
  intro names contentAt red_id red_name i tbl html rest hc hh
  simp [processReds, hc, main html hh]

/-- Witness for the amended C3: the heading-free document `<p>hola</p>` makes
`_parse_data` raise, and a network whose content fetch returns that document
makes the per-network loop propagate the parse failure. -/
theorem parse_data_missing_section_raises_witness :
    parse_data "<p>hola</p>" = .error "No tables found" ∧
    processReds ⟨"CA", "Prov", "Mun"⟩ (fun _ => .ok "<p>hola</p>") [("7", "Red")] 0
      ⟨[], [], []⟩ = .error (.parseFail "No tables found") :=
  ⟨parse_data_missing_section_raises.1 "<p>hola</p>" rfl,
    parse_data_missing_section_raises.2 ⟨"CA", "Prov", "Mun"⟩
      (fun _ => .ok "<p>hola</p>") "7" "Red" 0 ⟨[], [], []⟩ "<p>hola</p>" [] rfl rfl⟩

/-- Witness for the amended C2: a single 403 aborts the discovery fetch after
one attempt; a constant 403 exhausts the extraction fetch's 4 attempts. -/
theorem client_fault_retry_amended_witness :
    fetch_data .discovery (fun _ => .http 403 "" true) =
      (1, .error (.direct .requestError)) ∧
    fetch_data .extraction (fun _ => .http 403 "" true) =
      (RETRIES, .error (.retriesExhausted .requestError)) :=
  ⟨client_fault_retry_amended.1 (fun _ => .http 403 "" true) 403 "" true
      (by decide) (by decide) (by decide) rfl,
    client_fault_retry_amended.2 403 "" true
      (by decide) (by decide) (by decide) (by decide)⟩

/-- C10: the option extractor is total only for inputs in which every
`<option>` element carries a `value` attribute: it raises `KeyError` exactly
when some option lacks the attribute (instead of skipping it or returning the
pair), and succeeds whenever every option carries the attribute. -/
theorem parse_options_keyerror (opts : List OptionElem) :
    (parse_options opts = .error "KeyError: value" ↔ ∃ o ∈ opts, o.value = none) ∧
    ((∀ o ∈ opts, o.value ≠ none) → ∃ pairs, parse_options opts = .ok pairs) := by
  induction opts with
  | nil =>
    refine ⟨⟨fun h => by simp [parse_options] at h, fun h => by simp at h⟩, fun _ => ⟨[], rfl⟩⟩
  | cons o rest ih =>
    cases hv : o.value with
    | none =>
      refine ⟨⟨fun _ => ⟨o, by simp, hv⟩, fun _ => by simp [parse_options, hv]⟩, fun hall => ?_⟩
      exact absurd hv (hall o (by simp))
    | some v =>
      constructor
      · constructor
        · intro h
          simp only [parse_options, hv] at h
          cases hrest : parse_options rest with
          | error e =>
            rw [hrest] at h
            have h' : (Except.error e : Except String (List (String × String))) =
                .error "KeyError: value" := h
            obtain ⟨o', ho', hn⟩ := ih.1.mp (by rw [hrest, Except.error.inj h'])
            exact ⟨o', by simp [ho'], hn⟩
          | ok tl =>
            rw [hrest] at h
            by_cases hne : v != ""
            · simp [hne] at h
            · simp [hne] at h
        · intro ⟨o', ho', hn⟩
          rcases List.mem_cons.mp ho' with rfl | hmem
          · rw [hv] at hn; exact Option.noConfusion hn
          · have : parse_options rest = .error "KeyError: value" := ih.1.mpr ⟨o', hmem, hn⟩
            simp [parse_options, hv, this]
      · intro hall
        obtain ⟨tl, htl⟩ := ih.2 (fun o' ho' => hall o' (by simp [ho']))
        by_cases hne : v != ""
        · exact ⟨(v, o.text) :: tl, by simp [parse_options, hv, htl, hne]⟩
        · exact ⟨tl, by simp [parse_options, hv, htl, hne]⟩

/-- Witness for C10: a value-less option raises `KeyError`; a placeholder plus
a populated option parse successfully. -/
theorem parse_options_keyerror_witness :
    parse_options [⟨none, "bad"⟩] = .error "KeyError: value" ∧
    ∃ pairs, parse_options [⟨some "", "placeholder"⟩, ⟨some "1", "a"⟩] = .ok pairs :=
  ⟨(parse_options_keyerror [⟨none, "bad"⟩]).1.mpr ⟨⟨none, "bad"⟩, by simp, rfl⟩,
    (parse_options_keyerror [⟨some "", "placeholder"⟩, ⟨some "1", "a"⟩]).2
      (by intro o ho; simp at ho; rcases ho with rfl | rfl <;> simp)⟩

/-- One `acquire()` grants at least `1/R` after the stored last grant time. -/
theorem rlGrants_head_bound (R : ℚ) (hR : 0 < R) (last : ℚ) (steps : List (ℚ × ℚ))
    (hs : ∀ p ∈ steps, 0 ≤ p.1 ∧ 0 ≤ p.2) :
    ∀ g ∈ (rlGrants R last steps).head?, last + 1 / R ≤ g := by
  cases steps with
  | nil => simp [rlGrants]
  | cons p rest =>
    obtain ⟨δ, ε⟩ := p
    obtain ⟨hδ, hε⟩ := hs (δ, ε) (by simp)
    simp only at hδ hε
    intro g hg
    simp only [rlGrants, List.head?_cons, Option.mem_def, Option.some.injEq] at hg
    subst hg
    have harith : last + δ - last = δ := by ring
    rw [harith]
    by_cases hlt : δ < 1 / R
    · rw [if_pos hlt]; linarith
    · rw [if_neg hlt]; push_neg at hlt; linarith

/-- Consecutive grants of a run of `acquire()` calls are at least `1/R`
apart. -/
theorem rlGrants_chain (R : ℚ) (hR : 0 < R) :
    ∀ (steps : List (ℚ × ℚ)) (last : ℚ),
      (∀ p ∈ steps, 0 ≤ p.1 ∧ 0 ≤ p.2) →
      List.Chain' (fun a b => a + 1 / R ≤ b) (rlGrants R last steps) := by
  intro steps
  induction steps with
  | nil => intro last _; simp [rlGrants]
  | cons p rest ih =>
    intro last hs
    obtain ⟨δ, ε⟩ := p
    rw [show rlGrants R last ((δ, ε) :: rest) =
      ((if last + δ - last < 1 / R then last + δ + (1 / R - (last + δ - last))
        else last + δ) + ε) :: rlGrants R ((if last + δ - last < 1 / R then
        last + δ + (1 / R - (last + δ - last)) else last + δ) + ε) rest from rfl]
    rw [List.chain'_cons']
    have hrest : ∀ p ∈ rest, 0 ≤ p.1 ∧ 0 ≤ p.2 := fun q hq => hs q (by simp [hq])
    exact ⟨rlGrants_head_bound R hR _ rest hrest, ih _ hrest⟩

/-- Telescoping a chain with additive gap `c`: over a non-empty list, the last
element is at least `(length - 1) * c` above the first. -/
theorem chain_gap_total (c : ℚ) :
    ∀ (l : List ℚ) (h : l ≠ []), List.Chain' (fun a b => a + c ≤ b) l →
      l.head h + ((l.length - 1 : ℕ) : ℚ) * c ≤ l.getLast h := by
  intro l
  induction l with
  | nil => intro h; exact absurd rfl h
  | cons a t ih =>
    intro _ hchain
    cases t with
    | nil => simp
    | cons b u =>
      rw [List.chain'_cons] at hchain
      have hstep : a + c ≤ b := hchain.1
      have := ih (by simp) hchain.2
      rw [List.getLast_cons (by simp)]
      simp only [List.head_cons] at this ⊢
      have hlen : (((b :: u).length - 1 : ℕ) : ℚ) + 1 = ((a :: b :: u).length - 1 : ℕ) := by
        simp
      calc a + ((a :: b :: u).length - 1 : ℕ) * c
          = (a + c) + ((b :: u).length - 1 : ℕ) * c := by rw [← hlen]; ring
        _ ≤ b + ((b :: u).length - 1 : ℕ) * c := by linarith
        _ ≤ (b :: u).getLast (by simp) := this

/-- C5: for any rate `R > 0` and any sequence of `N ≥ 1` consecutive
`acquire()` calls (arbitrary nonnegative clock drifts and oversleeps), each
granted acquisition is at least `1/R` seconds after the previously granted
one, one grant is issued per call, and the last grant is at least `(N-1)/R`
seconds after the first — so the `N` calls take at least `(N-1)/R` seconds in
total.  The lock makes the check-and-update of `last_request_time` atomic, so
consecutive grants are exactly the sequential runs modelled by
`rateLimiterRun`. -/
theorem rate_limiter_spacing (R : ℚ) (steps : List (ℚ × ℚ)) (hR : 0 < R)
    (hsteps : ∀ p ∈ steps, 0 ≤ p.1 ∧ 0 ≤ p.2) :
    List.Chain' (fun a b => a + 1 / R ≤ b) (rateLimiterRun R steps) ∧
    (rateLimiterRun R steps).length = steps.length ∧
    (∀ a b, (rateLimiterRun R steps).head? = some a →
      (rateLimiterRun R steps).getLast? = some b →
      a + ((steps.length - 1 : ℕ) : ℚ) * (1 / R) ≤ b) := by
  have hchain := rlGrants_chain R hR steps 0 hsteps
  have hlen : ∀ (ss : List (ℚ × ℚ)) (last : ℚ), (rlGrants R last ss).length = ss.length := by
    intro ss
    induction ss with
    | nil => intro last; rfl
    | cons p rest ih => obtain ⟨δ, ε⟩ := p; intro last; simp [rlGrants, ih]
  refine ⟨hchain, hlen steps 0, ?_⟩
  intro a b ha hb
  have hne : rateLimiterRun R steps ≠ [] := by
    intro hnil
    rw [hnil] at ha
    exact Option.noConfusion ha
  have hhead : a = (rateLimiterRun R steps).head hne := by
    rw [List.head?_eq_head hne] at ha
    exact (Option.some.inj ha).symm
  have hlast : b = (rateLimiterRun R steps).getLast hne := by
    rw [List.getLast?_eq_getLast _ hne] at hb
    exact (Option.some.inj hb).symm
  subst hhead hlast
  have := chain_gap_total (1 / R) (rateLimiterRun R steps) hne hchain
  rwa [show (rateLimiterRun R steps).length = steps.length from hlen steps 0] at this

/-- Witness for C5: two back-to-back `acquire()` calls on a limiter for 2
requests/second, the first issued 100 seconds after construction, are granted
half a second apart. -/
theorem rate_limiter_spacing_witness :
    rateLimiterRun 2 [(100, 0), (0, 0)] = [100, 100 + 1 / 2] ∧
    (100 : ℚ) + ((2 - 1 : ℕ) : ℚ) * (1 / 2) ≤ 100 + 1 / 2 := by
  have hrun : rateLimiterRun 2 [(100, 0), (0, 0)] = [100, 100 + 1 / 2] := by
    norm_num [rateLimiterRun, rlGrants]
  refine ⟨hrun, ?_⟩
  have := (rate_limiter_spacing 2 [(100, 0), (0, 0)] (by norm_num)
    (by intro p hp; simp at hp; rcases hp with rfl | rfl <;> norm_num)).2.2
    100 (100 + 1 / 2) (by rw [hrun]; rfl) (by rw [hrun]; rfl)
  simpa using this

/-- The retry loop always performs at least one attempt when its budget is
positive. -/
theorem fetchGo_attempts_pos (retryable : Fault → Bool) (attempts : Nat → Outcome) :
    ∀ (r n : Nat), 0 < r → n < (fetchGo retryable attempts n r).1 := by
  intro r
  induction r with
  | zero => intro n h; omega
  | succ r ih =>
    intro n _
    unfold fetchGo
    cases attempts n with
    | success s => simp
    | failure f =>
      by_cases hret : retryable f = true
      · by_cases hr : r = 0
        · simp [hret, hr]
        · have hb : (r == 0) = false := by simp [hr]
          have hrec := ih (n + 1) (by omega)
          simp only [hret, hb]
          simp only [Bool.false_eq_true, if_false, if_true]
          omega
      · simp at hret
        simp [hret]

/-- In every prefix of the flattened per-attempt extraction events, the number
of POSTs never exceeds the number of limiter acquisitions. -/
theorem red_trace_post_le_acquire :
    ∀ (n k : Nat),
      (((List.replicate n red_attempt_events).flatten.take k).count FetchEvent.postRequest) ≤
      (((List.replicate n red_attempt_events).flatten.take k).count FetchEvent.acquireLimiter) := by
  intro n
  induction n with
  | zero => intro k; simp
  | succ n ih =>
    intro k
    rw [List.replicate_succ, List.flatten_cons]
    show ((FetchEvent.acquireLimiter :: FetchEvent.postRequest ::
        (List.replicate n red_attempt_events).flatten).take k).count FetchEvent.postRequest ≤
      ((FetchEvent.acquireLimiter :: FetchEvent.postRequest ::
        (List.replicate n red_attempt_events).flatten).take k).count FetchEvent.acquireLimiter
    match k with
    | 0 => simp
    | 1 => simp [List.count_cons]
    | k + 2 =>
      have := ih k
      simp only [List.take_succ_cons, List.count_cons]
      simp
      omega

/-- C7: every execution of the extraction-phase `_fetch_data` acquires the
shared rate limiter before issuing its POST — its event trace starts with an
acquisition and no prefix of it contains more POSTs than acquisitions — while
the trace of a discovery-phase `_fetch_data` never contains a rate-limiter
acquisition (the acquire line is commented out): the discovery phase is
unthrottled. -/
theorem limiter_acquired_only_in_extraction :
    (∀ inputs : Nat → RespInput,
      (fetch_trace .extraction inputs).head? = some .acquireLimiter ∧
      ∀ k : Nat,
        ((fetch_trace .extraction inputs).take k).count FetchEvent.postRequest ≤
        ((fetch_trace .extraction inputs).take k).count FetchEvent.acquireLimiter) ∧
    (∀ inputs : Nat → RespInput,
      FetchEvent.acquireLimiter ∉ fetch_trace .discovery inputs) := by
  constructor
  · intro inputs
    constructor
    · have hpos : 0 < (fetch_data .extraction inputs).1 := by
        have := fetchGo_attempts_pos (phase_retryable .extraction)
          (fun n => attemptOutcome (phase_handle .extraction) (inputs n)) RETRIES 0 (by decide)
        exact this
      unfold fetch_trace
      obtain ⟨m, hm⟩ : ∃ m, (fetch_data .extraction inputs).1 = m + 1 :=
        ⟨(fetch_data .extraction inputs).1 - 1, by omega⟩
      rw [hm, List.replicate_succ, List.flatten_cons]
      rfl
    · intro k
      unfold fetch_trace
      exact red_trace_post_le_acquire (fetch_data .extraction inputs).1 k
  · intro inputs
    unfold fetch_trace
    intro hmem
    rw [List.mem_flatten] at hmem
    obtain ⟨l, hl, hx⟩ := hmem
    rw [List.eq_of_mem_replicate hl] at hx
    simp [phase_attempt_events, payload_attempt_events] at hx

/-- Every row `_parse_data` returns passed the whitelist filter. -/
theorem parse_data_rows_whitelisted (html : String) (rows : List MeasRow)
    (h : parse_data html = .ok rows) : ∀ r ∈ rows, isinCodes r = true := by
  unfold parse_data at h
  cases hrt : readHtmlTable (parse_data_fragment html) with
  | error e =>
    rw [hrt] at h
    exact absurd h (by simp)
  | ok rows0 =>
    rw [hrt] at h
    have h' : (Except.ok (rows0.filter isinCodes) : Except String (List MeasRow)) =
        .ok rows := h
    rw [← Except.ok.inj h']
    intro r hr
    exact List.of_mem_filter hr

/-- Effect of the per-network loop on the accumulators: it only appends to the
`'red'` table, and every appended row is tagged with the given names and has a
whitelisted code. -/
theorem processReds_spec (names : MunNames) (cAt : Nat → Except FetchErr String) :
    ∀ (reds : List (String × String)) (i : Nat) (tbl tbl' : Tables),
      processReds names cAt reds i tbl = .ok tbl' →
      tbl'.payloadT = tbl.payloadT ∧ tbl'.invalid = tbl.invalid ∧
      ∃ new, tbl'.red = tbl.red ++ new ∧
        ∀ r ∈ new, r.names = names ∧ isinCodes r.row = true := by
  intro reds
  induction reds with
  | nil =>
    intro i tbl tbl' h
    have h' : (Except.ok tbl : Except RunErr Tables) = .ok tbl' := h
    rw [← Except.ok.inj h']
    exact ⟨rfl, rfl, [], by simp, by simp⟩
  | cons p rest ih =>
    obtain ⟨red_id, red_name⟩ := p
    intro i tbl tbl' h
    unfold processReds at h
    cases hc : cAt i with
    | error e => rw [hc] at h; exact absurd h (by simp)
    | ok html =>
      rw [hc] at h
      have h2 : (match parse_data html with
          | Except.error msg => (Except.error (RunErr.parseFail msg) : Except RunErr Tables)
          | Except.ok rows =>
            processReds names cAt rest (i + 1)
              (if rows.isEmpty = true then tbl
                else { tbl with
                  red := tbl.red ++ rows.map (fun r => ⟨names, red_name, r⟩) })) =
          Except.ok tbl' := h
      cases hp : parse_data html with
      | error msg => rw [hp] at h2; exact absurd h2 (by simp)
      | ok rows =>
        rw [hp] at h2
        have h' : processReds names cAt rest (i + 1)
            (if rows.isEmpty = true then tbl
              else { tbl with
                red := tbl.red ++ rows.map (fun r => ⟨names, red_name, r⟩) }) = .ok tbl' := h2
        by_cases hemp : rows.isEmpty = true
        · rw [if_pos hemp] at h'
          exact ih (i + 1) tbl tbl' h'
        · rw [if_neg hemp] at h'
          obtain ⟨hpay, hinv, new', hred, hprop⟩ := ih (i + 1) _ tbl' h'
          refine ⟨hpay, hinv, rows.map (fun r => ⟨names, red_name, r⟩) ++ new', ?_, ?_⟩
          · rw [hred]
            show _ = tbl.red ++ _
            rw [List.append_assoc]
          · intro r hr
            rcases List.mem_append.mp hr with hmap | hnew
            · obtain ⟨r0, hr0, rfl⟩ := List.mem_map.mp hmap
              exact ⟨rfl, parse_data_rows_whitelisted html rows hp r0 hr0⟩
            · exact hprop r hnew

/-- `_update_progress` only touches the counter and the callback record. -/
theorem update_progress_effect (hasCb : Bool) (st : RunState) :
    (update_progress hasCb st).mem = st.mem ∧
    (update_progress hasCb st).disk = st.disk ∧
    (hasCb = true → (update_progress hasCb st).counter = st.counter + 1 ∧
      (update_progress hasCb st).calls = st.calls ++ [st.counter + 1]) ∧
    (hasCb = false → (update_progress hasCb st).counter = st.counter ∧
      (update_progress hasCb st).calls = st.calls) := by
  cases hasCb <;> simp [update_progress]

/-- Effect of processing one municipality: its networks were discovered; on
zero networks only the in-memory invalid table grows (nothing is written to
disk); otherwise only the in-memory `'red'` table grows, with rows tagged by
this municipality, and all three in-memory accumulators are checkpointed to
disk; in either case progress is updated exactly once. -/
theorem process_mun_reds_spec (hasCb : Bool) (st : RunState) (m : MunOracle)
    (st' : RunState) (h : process_mun_reds hasCb st m = .ok st') :
    (∃ reds, discoveredReds m = some reds) ∧
    ((discoveredReds m = some [] ∧
        st'.mem.invalid = st.mem.invalid ++ [m.names] ∧
        st'.mem.red = st.mem.red ∧ st'.mem.payloadT = st.mem.payloadT ∧
        st'.disk = st.disk) ∨
      (discoveredReds m ≠ some [] ∧
        st'.mem.invalid = st.mem.invalid ∧ st'.mem.payloadT = st.mem.payloadT ∧
        (∃ new, st'.mem.red = st.mem.red ++ new ∧
          ∀ r ∈ new, r.names = m.names ∧ isinCodes r.row = true) ∧
        st'.disk = st'.mem)) ∧
    (hasCb = true → st'.counter = st.counter + 1 ∧ st'.calls = st.calls ++ [st.counter + 1]) ∧
    (hasCb = false → st'.counter = st.counter ∧ st'.calls = st.calls) := by
  unfold process_mun_reds at h
  cases hnet : m.netFetch with
  | error e => rw [hnet] at h; exact absurd h (by simp)
  | ok doc =>
    rw [hnet] at h
    have h2 : (match parse_table doc with
        | Except.error msg => (Except.error (RunErr.parseFail msg) : Except RunErr RunState)
        | Except.ok reds =>
          if reds.length == 0 then
            Except.ok (update_progress hasCb
              { st with mem := { st.mem with invalid := st.mem.invalid ++ [m.names] } })
          else
            match processReds m.names m.contentAt reds 0 st.mem with
            | .error e => .error e
            | .ok mem1 =>
              .ok (update_progress hasCb { st with mem := mem1, disk := mem1 })) =
        Except.ok st' := h
    cases hpt : parse_table doc with
    | error msg => rw [hpt] at h2; exact absurd h2 (by simp)
    | ok reds =>
      rw [hpt] at h2
      have h3 : (if reds.length == 0 then
          Except.ok (update_progress hasCb
            { st with mem := { st.mem with invalid := st.mem.invalid ++ [m.names] } })
        else
          match processReds m.names m.contentAt reds 0 st.mem with
          | .error e => .error e
          | .ok mem1 =>
            .ok (update_progress hasCb { st with mem := mem1, disk := mem1 })) =
          Except.ok st' := h2
      have hdisc : discoveredReds m = some reds := by
        unfold discoveredReds
        rw [hnet]
        show (match parse_table doc with
          | .error _ => none
          | .ok reds => some reds) = some reds
        rw [hpt]
      refine ⟨⟨reds, hdisc⟩, ?_⟩
      by_cases hz : (reds.length == 0) = true
      · rw [if_pos hz] at h3
        have hnil : reds = [] := List.length_eq_zero.mp (by simpa using hz)
        have hst' := Except.ok.inj h3
        obtain ⟨hmem, hdisk, hT, hF⟩ := update_progress_effect hasCb
          { st with mem := { st.mem with invalid := st.mem.invalid ++ [m.names] } }
        rw [hst'] at hmem hdisk hT hF
        refine ⟨Or.inl ⟨by rw [hdisc, hnil], ?_, ?_, ?_, ?_⟩, hT, hF⟩
        · rw [hmem]
        · rw [hmem]
        · rw [hmem]
        · rw [hdisk]
      · rw [if_neg hz] at h3
        cases hpr : processReds m.names m.contentAt reds 0 st.mem with
        | error e => rw [hpr] at h3; exact absurd h3 (by simp)
        | ok mem1 =>
          rw [hpr] at h3
          have h4 : Except.ok (update_progress hasCb
              { st with mem := mem1, disk := mem1 }) = Except.ok st' := h3
          have hst' := Except.ok.inj h4
          obtain ⟨hpay, hinv, new, hred, hprop⟩ := processReds_spec m.names m.contentAt reds 0
            st.mem mem1 hpr
          obtain ⟨hmem, hdisk, hT, hF⟩ := update_progress_effect hasCb
            { st with mem := mem1, disk := mem1 }
          rw [hst'] at hmem hdisk hT hF
          refine ⟨Or.inr ⟨?_, ?_, ?_, ⟨new, ?_, hprop⟩, ?_⟩, hT, hF⟩
          · rw [hdisc]
            intro hcon
            have hn : reds = [] := Option.some.inj hcon
            rw [hn] at hz
            simp at hz
          · rw [hmem]; exact hinv
          · rw [hmem]; exact hpay
          · rw [hmem]; exact hred
          · rw [hmem, hdisk]

/-- Run-level invariant: after a successful run over `ms` from state `st`,
the invalid table has grown by exactly the names of the zero-network
municipalities (in order), the `'red'` table has grown only by whitelisted
rows tagged with names of municipalities that had networks, and the progress
counter and callback record evolved by one update per municipality. -/
theorem runGo_spec (hasCb : Bool) :
    ∀ (ms : List MunOracle) (st st' : RunState), runGo hasCb st ms = .ok st' →
      st'.mem.invalid = st.mem.invalid ++
        (ms.filter (fun m => decide (discoveredReds m = some []))).map MunOracle.names ∧
      (∃ new, st'.mem.red = st.mem.red ++ new ∧
        ∀ r ∈ new, isinCodes r.row = true ∧
          ∃ m ∈ ms, ¬ discoveredReds m = some [] ∧ r.names = m.names) ∧
      (hasCb = true → st'.counter = st.counter + ms.length ∧
        st'.calls = st.calls ++ List.range' (st.counter + 1) ms.length) ∧
      (hasCb = false → st'.counter = st.counter ∧ st'.calls = st.calls) := by
  intro ms
  induction ms with
  | nil =>
    intro st st' h
    have h' : (Except.ok st : Except RunErr RunState) = .ok st' := h
    rw [← Except.ok.inj h']
    exact ⟨by simp, ⟨[], by simp, by simp⟩, fun _ => by simp [List.range'], fun _ => ⟨rfl, rfl⟩⟩
  | cons m rest ih =>
    intro st st' h
    unfold runGo at h
    cases hp : process_mun_reds hasCb st m with
    | error e => rw [hp] at h; exact absurd h (by simp)
    | ok st1 =>
      rw [hp] at h
      have h' : runGo hasCb st1 rest = .ok st' := h
      obtain ⟨⟨reds, _⟩, hcases, hcntT, hcntF⟩ := process_mun_reds_spec hasCb st m st1 hp
      obtain ⟨hinv', hnew', hT', hF'⟩ := ih st1 st' h'
      cases hcases with
      | inl hz =>
        obtain ⟨hzd, hinv1, hred1, _, _⟩ := hz
        refine ⟨?_, ?_, ?_, ?_⟩
        · rw [hinv', hinv1, List.filter_cons_of_pos (by simp [hzd])]
          simp
        · obtain ⟨new, hr, hprop⟩ := hnew'
          refine ⟨new, by rw [hr, hred1], fun r hrr => ?_⟩
          obtain ⟨hc, m', hm', hnz, hn⟩ := hprop r hrr
          exact ⟨hc, m', by simp [hm'], hnz, hn⟩
        · intro ht
          obtain ⟨hc1, hl1⟩ := hcntT ht
          obtain ⟨hc2, hl2⟩ := hT' ht
          constructor
          · rw [hc2, hc1]; simp; omega
          · rw [hl2, hl1, hc1, List.length_cons,
              List.range'_succ (st.counter + 1) rest.length 1]
            simp
        · intro hf
          obtain ⟨hc1, hl1⟩ := hcntF hf
          obtain ⟨hc2, hl2⟩ := hF' hf
          exact ⟨by rw [hc2, hc1], by rw [hl2, hl1]⟩
      | inr hnz =>
        obtain ⟨hzd, hinv1, _, ⟨new1, hred1, hprop1⟩, _⟩ := hnz
        refine ⟨?_, ?_, ?_, ?_⟩
        · rw [hinv', hinv1, List.filter_cons_of_neg (by simp [hzd])]
        · obtain ⟨new, hr, hprop⟩ := hnew'
          refine ⟨new1 ++ new, by rw [hr, hred1, List.append_assoc], fun r hrr => ?_⟩
          rcases List.mem_append.mp hrr with h1 | h2
          · obtain ⟨hn, hcode⟩ := hprop1 r h1
            exact ⟨hcode, m, by simp, hzd, hn⟩
          · obtain ⟨hc, m', hm', hnze, hn⟩ := hprop r h2
            exact ⟨hc, m', by simp [hm'], hnze, hn⟩
        · intro ht
          obtain ⟨hc1, hl1⟩ := hcntT ht
          obtain ⟨hc2, hl2⟩ := hT' ht
          constructor
          · rw [hc2, hc1]; simp; omega
          · rw [hl2, hl1, hc1, List.length_cons,
              List.range'_succ (st.counter + 1) rest.length 1]
            simp
        · intro hf
          obtain ⟨hc1, hl1⟩ := hcntF hf
          obtain ⟨hc2, hl2⟩ := hF' hf
          exact ⟨by rw [hc2, hc1], by rw [hl2, hl1]⟩

/-- `isinCodes` holds exactly when the row's code column is a member of the
parameter-code whitelist. -/
theorem isinCodes_iff (r : MeasRow) :
    isinCodes r = true ↔ ∃ c, rowCode r = some c ∧ c ∈ PARAMETER_CODES := by
  unfold isinCodes
  cases rowCode r with
  | none => simp
  | some c => simp [List.contains]

/-- C4: in every successful extraction run over municipalities with pairwise
distinct name triples, a municipality appears in the invalid-municipality
table iff its network-list discovery parsed zero networks, and a municipality
in the invalid table never appears as the source (name tag) of any row of the
measurement table. -/
theorem invalid_iff_zero_networks (hasCb : Bool) (ms : List MunOracle) (st : RunState)
    (hok : runExtract hasCb ms = .ok st)
    (hnodup : (ms.map MunOracle.names).Nodup) (m : MunOracle) (hm : m ∈ ms) :
    (m.names ∈ st.mem.invalid ↔ discoveredReds m = some []) ∧
    ¬(m.names ∈ st.mem.invalid ∧ ∃ r ∈ st.mem.red, r.names = m.names) := by
  obtain ⟨hinv, ⟨new, hred, hprop⟩, _, _⟩ := runGo_spec hasCb ms initState st hok
  have hinv0 : st.mem.invalid =
      (ms.filter (fun m => decide (discoveredReds m = some []))).map MunOracle.names := by
    simpa [initState] using hinv
  have hred0 : st.mem.red = new := by simpa [initState] using hred
  have hiff : m.names ∈ st.mem.invalid ↔ discoveredReds m = some [] := by
    rw [hinv0]
    constructor
    · intro hmm
      obtain ⟨m', hm'f, hnames⟩ := List.mem_map.mp hmm
      have hm'mem : m' ∈ ms := List.mem_of_mem_filter hm'f
      have hz : discoveredReds m' = some [] := by
        have := List.of_mem_filter hm'f
        simpa using this
      have heq : m' = m := List.inj_on_of_nodup_map hnodup hm'mem hm hnames
      rwa [← heq]
    · intro hz
      exact List.mem_map.mpr ⟨m, List.mem_filter.mpr ⟨hm, by simp [hz]⟩, rfl⟩
  refine ⟨hiff, ?_⟩
  rintro ⟨hminv, r, hr, hrnames⟩
  have hz : discoveredReds m = some [] := hiff.mp hminv
  rw [hred0] at hr
  obtain ⟨_, m', hm'mem, hm'nz, hrn⟩ := hprop r hr
  have heq : m' = m := List.inj_on_of_nodup_map hnodup hm'mem hm (by rw [← hrn]; exact hrnames)
  rw [heq] at hm'nz
  exact hm'nz hz

/-- Witness for C4: a two-municipality run (one with zero networks, one with a
network producing a measurement row): the zero-network municipality is in the
invalid table, and it tags no measurement row. -/
theorem invalid_iff_zero_networks_witness :
    (munSinRedes.names ∈ runStateAB.mem.invalid ↔
      discoveredReds munSinRedes = some []) ∧
    ¬(munSinRedes.names ∈ runStateAB.mem.invalid ∧
      ∃ r ∈ runStateAB.mem.red, r.names = munSinRedes.names) :=
  invalid_iff_zero_networks true [munSinRedes, munConRedes] runStateAB (by rfl)
    (by decide) munSinRedes (by simp)

/-- C6: every row `_parse_data` returns carries a parameter code from the
10-code whitelist `PARAMETER_CODES`; the whitelist filter is idempotent; and
in every successful run every row of the final measurement table carries a
whitelisted code. -/
theorem whitelist_filter_sound :
    (∀ (html : String) (rows : List MeasRow), parse_data html = .ok rows →
      ∀ r ∈ rows, ∃ c, rowCode r = some c ∧ c ∈ PARAMETER_CODES) ∧
    (∀ rows : List MeasRow,
      (rows.filter isinCodes).filter isinCodes = rows.filter isinCodes) ∧
    (∀ (hasCb : Bool) (ms : List MunOracle) (st : RunState),
      runExtract hasCb ms = .ok st →
      ∀ r ∈ st.mem.red, ∃ c, rowCode r.row = some c ∧ c ∈ PARAMETER_CODES) := by
  refine ⟨?_, ?_, ?_⟩
  · intro html rows h r hr
    exact (isinCodes_iff r).mp (parse_data_rows_whitelisted html rows h r hr)
  · intro rows
    rw [List.filter_filter]
    simp
  · intro hasCb ms st hok r hr
    obtain ⟨_, ⟨new, hred, hprop⟩, _, _⟩ := runGo_spec hasCb ms initState st hok
    have hred0 : st.mem.red = new := by simpa [initState] using hred
    rw [hred0] at hr
    exact (isinCodes_iff r.row).mp (hprop r hr).1

/-- Witness for C6: the fixture content document parses to exactly the one
whitelisted row (code 26, in the whitelist); the non-whitelisted row (99) is
dropped, and re-filtering a filtered list is a no-op. -/
theorem whitelist_filter_sound_witness :
    (∃ c, rowCode ⟨["26", "x"]⟩ = some c ∧ c ∈ PARAMETER_CODES) ∧
    (([⟨["26", "x"]⟩, ⟨["99", "y"]⟩] : List MeasRow).filter isinCodes).filter isinCodes =
      ([⟨["26", "x"]⟩, ⟨["99", "y"]⟩] : List MeasRow).filter isinCodes :=
  ⟨whitelist_filter_sound.1 goodHtml [⟨["26", "x"]⟩] rfl ⟨["26", "x"]⟩ (by simp),
    whitelist_filter_sound.2.1 [⟨["26", "x"]⟩, ⟨["99", "y"]⟩]⟩

/-- C8: when a municipality's network discovery parses zero networks,
`_process_mun_reds` appends the invalid record to the in-memory table, updates
progress and returns without writing any of the three accumulator snapshots to
disk; when a municipality with networks completes, all three in-memory
accumulators are checkpointed to disk, so an earlier invalid record reaches
durable storage only through such a later checkpoint. -/
theorem invalid_record_checkpoint_deferred :
    (∀ (hasCb : Bool) (st : RunState) (m : MunOracle),
      discoveredReds m = some [] →
      ∃ st', process_mun_reds hasCb st m = .ok st' ∧
        st'.disk = st.disk ∧
        st'.mem.invalid = st.mem.invalid ++ [m.names] ∧
        st'.mem.red = st.mem.red ∧ st'.mem.payloadT = st.mem.payloadT) ∧
    (∀ (hasCb : Bool) (st st' : RunState) (m : MunOracle),
      process_mun_reds hasCb st m = .ok st' →
      discoveredReds m ≠ some [] → st'.disk = st'.mem) ∧
    (∀ (hasCb : Bool) (st0 st2 : RunState) (m0 m1 : MunOracle),
      discoveredReds m0 = some [] → discoveredReds m1 ≠ some [] →
      runGo hasCb st0 [m0, m1] = .ok st2 → m0.names ∈ st2.disk.invalid) := by
  have part1 : ∀ (hasCb : Bool) (st : RunState) (m : MunOracle),
      discoveredReds m = some [] →
      ∃ st', process_mun_reds hasCb st m = .ok st' ∧
        st'.disk = st.disk ∧
        st'.mem.invalid = st.mem.invalid ++ [m.names] ∧
        st'.mem.red = st.mem.red ∧ st'.mem.payloadT = st.mem.payloadT := by
    intro hasCb st m hz
    unfold discoveredReds at hz
    cases hnet : m.netFetch with
    | error e => rw [hnet] at hz; exact absurd hz (by simp)
    | ok doc =>
      rw [hnet] at hz
      have hz2 : (match parse_table doc with
          | Except.error _ => (none : Option (List (String × String)))
          | Except.ok reds => some reds) = some [] := hz
      cases hpt : parse_table doc with
      | error msg => rw [hpt] at hz2; exact absurd hz2 (by simp)
      | ok reds =>
        rw [hpt] at hz2
        have hnil : reds = [] := by
          have : (some reds : Option (List (String × String))) = some [] := hz2
          exact Option.some.inj this
        refine ⟨update_progress hasCb
          { st with mem := { st.mem with invalid := st.mem.invalid ++ [m.names] } }, ?_, ?_⟩
        · unfold process_mun_reds
          rw [hnet]
          show (match parse_table doc with
            | Except.error msg => (Except.error (RunErr.parseFail msg) : Except RunErr RunState)
            | Except.ok reds =>
              if reds.length == 0 then
                Except.ok (update_progress hasCb
                  { st with mem := { st.mem with invalid := st.mem.invalid ++ [m.names] } })
              else
                match processReds m.names m.contentAt reds 0 st.mem with
                | .error e => .error e
                | .ok mem1 =>
                  .ok (update_progress hasCb { st with mem := mem1, disk := mem1 })) = _
          rw [hpt, hnil]
          rfl
        · obtain ⟨hmem, hdisk, _, _⟩ := update_progress_effect hasCb
            { st with mem := { st.mem with invalid := st.mem.invalid ++ [m.names] } }
          exact ⟨by rw [hdisk], by rw [hmem], by rw [hmem], by rw [hmem]⟩
  refine ⟨part1, ?_, ?_⟩
  · intro hasCb st st' m h hnz
    obtain ⟨_, hcases, _, _⟩ := process_mun_reds_spec hasCb st m st' h
    cases hcases with
    | inl hl => exact absurd hl.1 hnz
    | inr hr => exact hr.2.2.2.2
  · intro hasCb st0 st2 m0 m1 hz0 hnz1 hrun
    unfold runGo at hrun
    cases hp0 : process_mun_reds hasCb st0 m0 with
    | error e => rw [hp0] at hrun; exact absurd hrun (by simp)
    | ok st1 =>
      rw [hp0] at hrun
      have hrun1 : runGo hasCb st1 [m1] = .ok st2 := hrun
      unfold runGo at hrun1
      cases hp1 : process_mun_reds hasCb st1 m1 with
      | error e => rw [hp1] at hrun1; exact absurd hrun1 (by simp)
      | ok st2' =>
        rw [hp1] at hrun1
        have h22 : st2' = st2 := by
          have h0 : (Except.ok st2' : Except RunErr RunState) = .ok st2 := hrun1
          exact Except.ok.inj h0
        obtain ⟨st1', hp0', _, hinv0', _, _⟩ := part1 hasCb st0 m0 hz0
        have hst1 : st1' = st1 := by
          rw [hp0'] at hp0
          exact Except.ok.inj hp0
        rw [hst1] at hinv0'
        obtain ⟨_, hcases, _, _⟩ := process_mun_reds_spec hasCb st1 m1 st2' hp1
        cases hcases with
        | inl hl => exact absurd hl.1 hnz1
        | inr hr =>
          obtain ⟨_, hinv2, _, _, hdisk2⟩ := hr
          rw [← h22, hdisk2, hinv2, hinv0']
          simp

/-- Witness for C8: processing the zero-network fixture municipality from the
initial state leaves the (empty) disk snapshots untouched while the in-memory
invalid table records it; after the two-municipality fixture run the invalid
record is on disk, carried there by the second municipality's checkpoint. -/
theorem invalid_record_checkpoint_deferred_witness :
    (∃ st', process_mun_reds true initState munSinRedes = .ok st' ∧
      st'.disk = initState.disk ∧
      st'.mem.invalid = initState.mem.invalid ++ [munSinRedes.names] ∧
      st'.mem.red = initState.mem.red ∧ st'.mem.payloadT = initState.mem.payloadT) ∧
    munSinRedes.names ∈ runStateAB.disk.invalid :=
  ⟨invalid_record_checkpoint_deferred.1 true initState munSinRedes rfl,
    invalid_record_checkpoint_deferred.2.2 true initState runStateAB
      munSinRedes munConRedes rfl (by decide) (by rfl)⟩

/-- C9: when the engine is constructed without a progress callback, the
counter stays 0 and the callback is never invoked for the whole run; when a
callback is supplied, the counter ends equal to the number of processed
municipalities and the callback is invoked exactly once per completed
municipality, with the new count `1, 2, ..., N`. -/
theorem progress_counter_behavior :
    (∀ (ms : List MunOracle) (st : RunState), runExtract false ms = .ok st →
      st.counter = 0 ∧ st.calls = []) ∧
    (∀ (ms : List MunOracle) (st : RunState), runExtract true ms = .ok st →
      st.counter = ms.length ∧ st.calls = List.range' 1 ms.length) := by
  constructor
  · intro ms st hok
    obtain ⟨_, _, _, hF⟩ := runGo_spec false ms initState st hok
    exact hF rfl
  · intro ms st hok
    obtain ⟨_, _, hT, _⟩ := runGo_spec true ms initState st hok
    obtain ⟨hc, hl⟩ := hT rfl
    exact ⟨by simpa [initState] using hc, by simpa [initState] using hl⟩

/-- Witness for C9: the two-municipality fixture run with a callback ends with
counter 2 and calls `[1, 2]`; without a callback both stay empty. -/
theorem progress_counter_behavior_witness :
    (runStateAB.counter = [munSinRedes, munConRedes].length ∧
      runStateAB.calls = List.range' 1 [munSinRedes, munConRedes].length) ∧
    (runStateABnoCb.counter = 0 ∧ runStateABnoCb.calls = []) :=
  ⟨progress_counter_behavior.2 [munSinRedes, munConRedes] runStateAB (by rfl),
    progress_counter_behavior.1 [munSinRedes, munConRedes] runStateABnoCb (by rfl)⟩

end SINAC
